import Mathlib

/-!
Verification of `src/utils/error_handling.py`: a shallow embedding of the
`retry` decorator (bounded retry with exponential backoff) and of the
`FallbackRegistry` class, together with theorems about their contracts.

The wrapped Python callable is modelled as a function from its 0-based
invocation index to an outcome (a returned value or a raised exception),
so that operations whose behaviour depends on how often they have been
called — "fails on every invocation", "succeeds on its k-th call" — are
expressible.  The injected logging sink `logger_func` is likewise a
function from its 0-based invocation index to `Option E`: `none` means
the sink returns normally, `some e` means the sink itself raises `e`.
Delays are rationals (an exact model of the Python float arithmetic
`mdelay *= backoff`), and `tries` is an integer, as in Python.
-/

namespace ErrorHandling

/-- Outcome of one invocation of a wrapped Python callable: it either
returns a value of type `V` or raises an exception of type `E`. -/
inductive Outcome (V E : Type) where
  | ok (v : V)
  | err (e : E)
  deriving DecidableEq, Repr

/-- Whether an invocation outcome is a raised exception. -/
def Outcome.isErr {V E : Type} : Outcome V E → Bool
  | .ok _ => false
  | .err _ => true

/-- Observable events of one run of the `wrapper` closure produced by
`retry`:
* `call i g o` — invocation number `i` (0-based) of the wrapped function
  `func`, with outcome `o`; `g = true` for the guarded call inside the
  `try` of the `while` loop, `g = false` for the final unprotected
  `return func(*args, **kwargs)` after the loop;
* `log mdelay triesLeft e` — one invocation of `logger_func` with the
  fields interpolated into the message
  `"... Retrying in {mdelay}s... ({mtries-1} tries left). Error: {e}"`;
* `sleep d` — `time.sleep(d)`. -/
inductive Event (V E : Type) where
  | call (i : Nat) (guarded : Bool) (o : Outcome V E)
  | log (mdelay : ℚ) (triesLeft : Nat) (e : E)
  | sleep (d : ℚ)
  deriving DecidableEq, Repr

/-- The `while mtries > 0` loop of `wrapper` in `retry` (lines 60–74 of
`error_handling.py`), followed by the final unprotected call.  Arguments:
`op` is the wrapped function (indexed by invocation count), `sink` is
`logger_func` (indexed by its own invocation count; `some e` = the sink
raises `e`), `hasSink` is the truthiness test `if logger_func:`,
`backoff` the multiplier; then the loop state: remaining `mtries`
(a non-negative count — see `retryRun` for the integer-to-count step),
current `mdelay`, the number `i` of `op` invocations made so far and the
number `j` of sink invocations made so far.  Returns the event trace and
the outcome observed by the caller of the wrapper. -/
def retryLoop {V E : Type} (op : Nat → Outcome V E) (sink : Nat → Option E)
    (hasSink : Bool) (backoff : ℚ) :
    Nat → ℚ → Nat → Nat → List (Event V E) × Outcome V E
  | 0, _, i, _ => ([Event.call i false (op i)], op i)
  | m + 1, mdelay, i, j =>
    match op i with
    | Outcome.ok v => ([Event.call i true (Outcome.ok v)], Outcome.ok v)
    | Outcome.err e =>
      if hasSink then
        match sink j with
        | some es =>
          ([Event.call i true (Outcome.err e), Event.log mdelay m e], Outcome.err es)
        | none =>
          let rest := retryLoop op sink hasSink backoff m (mdelay * backoff) (i + 1) (j + 1)
          (Event.call i true (Outcome.err e) :: Event.log mdelay m e ::
            Event.sleep mdelay :: rest.1, rest.2)
      else
        let rest := retryLoop op sink hasSink backoff m (mdelay * backoff) (i + 1) j
        (Event.call i true (Outcome.err e) :: Event.sleep mdelay :: rest.1, rest.2)

/-- One run of the `wrapper` closure: `mtries, mdelay = tries, delay`,
then the loop.  `tries` is a Python integer; `while mtries > 0` with
`mtries -= 1` per iteration runs exactly `max tries 0 = tries.toNat`
iterations, after which line 74 performs the final unprotected call. -/
def retryRun {V E : Type} (op : Nat → Outcome V E) (sink : Nat → Option E)
    (hasSink : Bool) (tries : ℤ) (delay backoff : ℚ) :
    List (Event V E) × Outcome V E :=
  retryLoop op sink hasSink backoff tries.toNat delay 0 0

/-- Number of invocations of the wrapped function in a trace. -/
def callCount {V E : Type} : List (Event V E) → Nat
  | [] => 0
  | Event.call _ _ _ :: rest => callCount rest + 1
  | _ :: rest => callCount rest

/-- Number of guarded (inside-the-loop) invocations of the wrapped
function in a trace. -/
def guardedCallCount {V E : Type} : List (Event V E) → Nat
  | [] => 0
  | Event.call _ true _ :: rest => guardedCallCount rest + 1
  | _ :: rest => guardedCallCount rest

/-- Number of unguarded (final, after-the-loop) invocations of the
wrapped function in a trace. -/
def unguardedCallCount {V E : Type} : List (Event V E) → Nat
  | [] => 0
  | Event.call _ false _ :: rest => unguardedCallCount rest + 1
  | _ :: rest => unguardedCallCount rest

/-- Number of sink notifications in a trace. -/
def logCount {V E : Type} : List (Event V E) → Nat
  | [] => 0
  | Event.log _ _ _ :: rest => logCount rest + 1
  | _ :: rest => logCount rest

/-- The successive durations passed to `time.sleep` in a trace. -/
def sleepDurations {V E : Type} : List (Event V E) → List ℚ
  | [] => []
  | Event.sleep d :: rest => d :: sleepDurations rest
  | _ :: rest => sleepDurations rest

/-- Number of backoff waits that occur strictly between two guarded
attempts: a `sleep` event counts exactly when some guarded call occurs
later in the trace. -/
def waitsBetweenAttempts {V E : Type} : List (Event V E) → Nat
  | [] => 0
  | Event.sleep _ :: rest =>
    (if rest.any (fun e => match e with | Event.call _ true _ => true | _ => false)
      then 1 else 0) + waitsBetweenAttempts rest
  | _ :: rest => waitsBetweenAttempts rest

/-- `FallbackRegistry._fallbacks`, the process-wide dict mapping tool
names to fallback callables, modelled as an association list in which
the most recent binding for a key comes first (the unique observation
made of the dict is `dict.get`, which this model reproduces exactly). -/
abbrev Registry (F : Type) : Type := List (String × F)

/-- The initial value `_fallbacks = {}` (line 83). -/
def emptyRegistry {F : Type} : Registry F := []

/-- `FallbackRegistry.register_fallback` (lines 85–94):
`cls._fallbacks[tool_name] = fallback_func`, i.e. bind `tool_name` to
`fallback_func`, replacing any earlier binding for that key (a dict
holds at most one value per key); bindings for other keys are kept.
Key-iteration order is not observed by any method of the class, so the
position of the fresh binding is immaterial. -/
def register_fallback {F : Type} (r : Registry F) (tool_name : String)
    (fallback_func : F) : Registry F :=
  (tool_name, fallback_func) :: r.filter fun p => p.1 != tool_name

/-- `FallbackRegistry.get_fallback` (lines 96–107):
`return cls._fallbacks.get(tool_name)` — the most recent binding for
`tool_name`, or `none` when the key was never bound. -/
def get_fallback {F : Type} (r : Registry F) (tool_name : String) : Option F :=
  (r.find? fun p => p.1 == tool_name).map (·.2)

/-- `get_fallback` as a state transformer, making explicit that the
method returns the looked-up value together with the (unchanged)
registry state. -/
def get_fallback_st {F : Type} (r : Registry F) (tool_name : String) :
    Option F × Registry F :=
  (get_fallback r tool_name, r)

/-! ### Helper lemmas about the retry loop -/

/-- When every guarded attempt of the loop fails and the sink returns
normally, the loop performs `m` guarded calls, `m` notifications and
`m` sleeps, then one final unguarded call whose outcome is returned,
the final call being the last event of the trace. -/
lemma retryLoop_fail {V E : Type} (op : Nat → Outcome V E) (sink : Nat → Option E)
    (b : ℚ) (hsink : ∀ j, sink j = none) :
    ∀ m md i j, (∀ t, t < m → (op (i + t)).isErr = true) →
      (retryLoop op sink true b m md i j).2 = op (i + m) ∧
      logCount (retryLoop op sink true b m md i j).1 = m ∧
      callCount (retryLoop op sink true b m md i j).1 = m + 1 ∧
      guardedCallCount (retryLoop op sink true b m md i j).1 = m ∧
      unguardedCallCount (retryLoop op sink true b m md i j).1 = 1 ∧
      ∃ pre, (retryLoop op sink true b m md i j).1 =
          pre ++ [Event.call (i + m) false (op (i + m))] ∧ logCount pre = m := by
  intro m
  induction m with
  | zero =>
    intro md i j _
    exact ⟨by simp [retryLoop], by simp [retryLoop, logCount],
      by simp [retryLoop, callCount, logCount],
      by simp [retryLoop, guardedCallCount],
      by simp [retryLoop, unguardedCallCount],
      ⟨[], by simp [retryLoop], by simp [logCount]⟩⟩
  | succ m ih =>
    intro md i j hop
    have h0 : (op i).isErr = true := by simpa using hop 0 (Nat.succ_pos m)
    cases hOp : op i with
    | ok v => rw [hOp] at h0; simp [Outcome.isErr] at h0
    | err e =>
      have hshift : ∀ t, t < m → (op (i + 1 + t)).isErr = true := by
        intro t ht
        have := hop (t + 1) (by omega)
        have harith : i + (t + 1) = i + 1 + t := by omega
        rwa [harith] at this
      obtain ⟨hres, hlog, hcall, hg, hug, pre, hpre, hprecnt⟩ :=
        ih (md * b) (i + 1) (j + 1) hshift
      have harith : i + 1 + m = i + (m + 1) := by omega
      rw [harith] at hres hpre
      have hunfold : retryLoop op sink true b (m + 1) md i j =
          (Event.call i true (Outcome.err e) :: Event.log md m e ::
            Event.sleep md ::
              (retryLoop op sink true b m (md * b) (i + 1) (j + 1)).1,
           (retryLoop op sink true b m (md * b) (i + 1) (j + 1)).2) := by
        simp [retryLoop, hOp, hsink j]
      refine ⟨by rw [hunfold]; exact hres,
        by rw [hunfold]; simp [logCount, hlog],
        by rw [hunfold]; simp [callCount, hcall],
        by rw [hunfold]; simp [guardedCallCount, hg],
        by rw [hunfold]; simp [unguardedCallCount, hug],
        Event.call i true (Outcome.err e) :: Event.log md m e ::
          Event.sleep md :: pre, ?_, ?_⟩
      · rw [hunfold]
        simp [hpre]
      · simp [logCount, hprecnt]

/-- When the first `f` guarded attempts fail, attempt `f + 1` succeeds
with value `v`, and `f` is within the loop budget, the loop returns
`ok v` after exactly `f + 1` calls and `f` notifications, no unguarded
call being made; the successful call is the last event. -/
lemma retryLoop_success {V E : Type} (op : Nat → Outcome V E) (sink : Nat → Option E)
    (b : ℚ) (v : V) (hsink : ∀ j, sink j = none) :
    ∀ f m md i j, f < m → (∀ t, t < f → (op (i + t)).isErr = true) →
      op (i + f) = Outcome.ok v →
      (retryLoop op sink true b m md i j).2 = Outcome.ok v ∧
      logCount (retryLoop op sink true b m md i j).1 = f ∧
      callCount (retryLoop op sink true b m md i j).1 = f + 1 ∧
      unguardedCallCount (retryLoop op sink true b m md i j).1 = 0 ∧
      ∃ pre, (retryLoop op sink true b m md i j).1 =
          pre ++ [Event.call (i + f) true (Outcome.ok v)] ∧ logCount pre = f := by
  intro f
  induction f with
  | zero =>
    intro m md i j hm _ hsucc
    obtain ⟨m, rfl⟩ : ∃ m2, m = m2 + 1 := ⟨m - 1, by omega⟩
    rw [Nat.add_zero] at hsucc
    refine ⟨by simp [retryLoop, hsucc], by simp [retryLoop, hsucc, logCount],
      by simp [retryLoop, hsucc, callCount],
      by simp [retryLoop, hsucc, unguardedCallCount],
      ⟨[], by simp [retryLoop, hsucc], by simp [logCount]⟩⟩
  | succ f ih =>
    intro m md i j hm hfail hsucc
    obtain ⟨m, rfl⟩ : ∃ m2, m = m2 + 1 := ⟨m - 1, by omega⟩
    have h0 : (op i).isErr = true := by simpa using hfail 0 (Nat.succ_pos f)
    cases hOp : op i with
    | ok w => rw [hOp] at h0; simp [Outcome.isErr] at h0
    | err e =>
      have hshift : ∀ t, t < f → (op (i + 1 + t)).isErr = true := by
        intro t ht
        have := hfail (t + 1) (by omega)
        have harith : i + (t + 1) = i + 1 + t := by omega
        rwa [harith] at this
      have hsucc2 : op (i + 1 + f) = Outcome.ok v := by
        have harith : i + (f + 1) = i + 1 + f := by omega
        rwa [harith] at hsucc
      obtain ⟨hres, hlog, hcall, hug, pre, hpre, hprecnt⟩ :=
        ih m (md * b) (i + 1) (j + 1) (by omega) hshift hsucc2
      have harith : i + 1 + f = i + (f + 1) := by omega
      rw [harith] at hpre
      have hunfold : retryLoop op sink true b (m + 1) md i j =
          (Event.call i true (Outcome.err e) :: Event.log md m e ::
            Event.sleep md ::
              (retryLoop op sink true b m (md * b) (i + 1) (j + 1)).1,
           (retryLoop op sink true b m (md * b) (i + 1) (j + 1)).2) := by
        simp [retryLoop, hOp, hsink j]
      refine ⟨by rw [hunfold]; exact hres,
        by rw [hunfold]; simp [logCount, hlog],
        by rw [hunfold]; simp [callCount, hcall],
        by rw [hunfold]; simp [unguardedCallCount, hug],
        Event.call i true (Outcome.err e) :: Event.log md m e ::
          Event.sleep md :: pre, ?_, ?_⟩
      · rw [hunfold]
        simp [hpre]
      · simp [logCount, hprecnt]

/-- Every `sleep` duration in a run of the loop follows the geometric
schedule: the `k`-th sleep (0-based) lasts `md * b ^ k`, for any wrapped
operation and any normally-returning (or absent) sink. -/
lemma retryLoop_sleep_geom {V E : Type} (op : Nat → Outcome V E) (sink : Nat → Option E)
    (hs : Bool) (b : ℚ) (hsink : ∀ j, sink j = none) :
    ∀ m md i j k, k < (sleepDurations (retryLoop op sink hs b m md i j).1).length →
      (sleepDurations (retryLoop op sink hs b m md i j).1).getD k 0 = md * b ^ k := by
  intro m
  induction m with
  | zero => intro md i j k hk; simp [retryLoop, sleepDurations] at hk
  | succ m ih =>
    intro md i j k hk
    cases hOp : op i with
    | ok v => rw [retryLoop] at hk ⊢; simp [hOp, sleepDurations] at hk
    | err e =>
      cases hs with
      | false =>
        rw [retryLoop] at hk ⊢
        simp only [hOp, Bool.false_eq_true, if_false, sleepDurations] at hk ⊢
        cases k with
        | zero => simp
        | succ k =>
          simp only [List.length_cons, Nat.succ_lt_succ_iff] at hk
          have := ih (md * b) (i + 1) j k hk
          rw [List.getD_cons_succ, this]
          ring
      | true =>
        rw [retryLoop] at hk ⊢
        simp only [hOp, if_true, hsink j, sleepDurations] at hk ⊢
        cases k with
        | zero => simp
        | succ k =>
          simp only [List.length_cons, Nat.succ_lt_succ_iff] at hk
          have := ih (md * b) (i + 1) (j + 1) k hk
          rw [List.getD_cons_succ, this]
          ring

/-- With a sink that returns normally on every call, the outcome the
caller observes is the same as with no sink at all: reporting does not
affect the result. -/
lemma retryLoop_sink_transparent {V E : Type} (op : Nat → Outcome V E)
    (sink : Nat → Option E) (b : ℚ) (hsink : ∀ j, sink j = none) :
    ∀ m md i j j2, (retryLoop op sink true b m md i j).2 =
      (retryLoop op (fun _ => none) false b m md i j2).2 := by
  intro m
  induction m with
  | zero => intro md i j j2; simp [retryLoop]
  | succ m ih =>
    intro md i j j2
    cases hOp : op i with
    | ok v => simp [retryLoop, hOp]
    | err e => simp [retryLoop, hOp, hsink j, ih (md * b) (i + 1) (j + 1) j2]

/-- `find?` commutes with a `filter` that keeps every element the
search predicate accepts. -/
lemma find?_filter_of_imp {α : Type} (l : List α) (q f : α → Bool)
    (h : ∀ a, q a = true → f a = true) :
    (l.filter f).find? q = l.find? q := by
  induction l with
  | nil => rfl
  | cons a l ih =>
    by_cases hq : q a = true
    · rw [List.filter_cons, h a hq]
      simp [List.find?, hq, ih]
    · rw [List.filter_cons]
      cases hf : f a with
      | false => simp only [Bool.false_eq_true, if_false, List.find?,
          Bool.eq_false_iff.mpr hq, ih]
      | true =>
        simp only [if_true, List.find?, Bool.eq_false_iff.mpr hq, ih]

/-! ### Claim theorems -/

/-- C1: for every `max_attempts = n ≥ 1` and a wrapped operation that
fails on every invocation, the sink is notified exactly `n` times (one
per failed guarded attempt, all before the final unprotected call, which
is the last event of the trace), and the outcome the caller observes is
the wrapped operation's own failure (that of its final invocation). -/
theorem retry_always_fail_logs_and_propagates {V E : Type} (n : ℕ) (_hn : 1 ≤ n)
    (op : Nat → Outcome V E) (hop : ∀ i, (op i).isErr = true)
    (sink : Nat → Option E) (hsink : ∀ j, sink j = none) (d b : ℚ) :
    logCount (retryRun op sink true (n : ℤ) d b).1 = n ∧
    guardedCallCount (retryRun op sink true (n : ℤ) d b).1 = n ∧
    (retryRun op sink true (n : ℤ) d b).2 = op n ∧
    (op n).isErr = true ∧
    ∃ pre, (retryRun op sink true (n : ℤ) d b).1 =
        pre ++ [Event.call n false (op n)] ∧ logCount pre = n := by
  obtain ⟨h1, h2, _, h4, _, pre, hpre, hcnt⟩ :=
    retryLoop_fail op sink b hsink n d 0 0 (fun t _ => by simpa using hop t)
  rw [retryRun, Int.toNat_natCast]
  simp only [Nat.zero_add] at h1 hpre
  exact ⟨h2, h4, h1, hop n, pre, hpre, hcnt⟩

/-- Witness for C1: an operation raising `i` on its `i`-th invocation,
`max_attempts = 2`, a normally-returning sink. -/
theorem retry_always_fail_witness :
    logCount (retryRun (fun i => (Outcome.err i : Outcome Nat Nat))
      (fun _ => none) true ((2 : ℕ) : ℤ) 1 2).1 = 2 ∧
    (retryRun (fun i => (Outcome.err i : Outcome Nat Nat))
      (fun _ => none) true ((2 : ℕ) : ℤ) 1 2).2 = Outcome.err 2 := by
  have h := retry_always_fail_logs_and_propagates 2 (by decide)
    (fun i => (Outcome.err i : Outcome Nat Nat)) (fun _ => rfl)
    (fun _ => none) (fun _ => rfl) 1 2
  exact ⟨h.1, h.2.2.1⟩

/-- C2: for every `max_attempts = n ≥ 1` and a wrapped operation that
succeeds on its `k`-th invocation (`1 ≤ k ≤ n`), the wrapper returns the
success value unchanged, the sink receives exactly `k - 1` notifications,
and the operation is invoked exactly `k` times — the successful call is
the last event, so nothing runs after it, and the final unprotected call
never happens. -/
theorem retry_success_kth {V E : Type} (n k : ℕ) (hk : 1 ≤ k) (hkn : k ≤ n)
    (op : Nat → Outcome V E) (v : V)
    (hfail : ∀ t, t < k - 1 → (op t).isErr = true)
    (hsucc : op (k - 1) = Outcome.ok v)
    (sink : Nat → Option E) (hsink : ∀ j, sink j = none) (d b : ℚ) :
    (retryRun op sink true (n : ℤ) d b).2 = Outcome.ok v ∧
    logCount (retryRun op sink true (n : ℤ) d b).1 = k - 1 ∧
    callCount (retryRun op sink true (n : ℤ) d b).1 = k ∧
    unguardedCallCount (retryRun op sink true (n : ℤ) d b).1 = 0 ∧
    ∃ pre, (retryRun op sink true (n : ℤ) d b).1 =
        pre ++ [Event.call (k - 1) true (Outcome.ok v)] := by
  obtain ⟨h1, h2, h3, h4, pre, hpre, -⟩ :=
    retryLoop_success op sink b v hsink (k - 1) n d 0 0 (by omega)
      (fun t ht => by simpa using hfail t ht) (by simpa using hsucc)
  rw [retryRun, Int.toNat_natCast]
  simp only [Nat.zero_add] at hpre
  have hkk : k - 1 + 1 = k := by omega
  rw [hkk] at h3
  exact ⟨h1, h2, h3, h4, pre, hpre⟩

/-- Witness for C2: an operation failing twice then returning `42` on its
third invocation, `max_attempts = 3`. -/
theorem retry_success_kth_witness :
    (retryRun (fun i => if i < 2 then Outcome.err i else Outcome.ok 42)
      (fun _ => none) true ((3 : ℕ) : ℤ) 1 2).2 = Outcome.ok 42 ∧
    logCount (retryRun (fun i => if i < 2 then Outcome.err i else Outcome.ok 42)
      (fun _ => none) true ((3 : ℕ) : ℤ) 1 2).1 = 2 ∧
    callCount (retryRun (fun i => if i < 2 then Outcome.err i else Outcome.ok 42)
      (fun _ => none) true ((3 : ℕ) : ℤ) 1 2).1 = 3 := by
  have h := retry_success_kth 3 3 (by decide) (by decide)
    (fun i => if i < 2 then Outcome.err i else Outcome.ok 42) 42
    (fun t ht => by interval_cases t <;> rfl) rfl
    (fun _ => none) (fun _ => rfl) 1 2
  exact ⟨h.1, h.2.1, h.2.2.1⟩

/-- C3: after the `n` guarded attempts of the loop all fail, exactly one
additional unguarded invocation of the wrapped operation is made (as the
last event of the trace), and whatever that invocation produces — a
value or a failure, unconstrained here — is returned to the caller
unchanged; the result type `Outcome` carries only the operation's own
outcomes, so no distinct "retries exhausted" error of the wrapper can
surface. -/
theorem retry_exhaustion_final_call {V E : Type} (n : ℕ)
    (op : Nat → Outcome V E) (hop : ∀ t, t < n → (op t).isErr = true)
    (sink : Nat → Option E) (hsink : ∀ j, sink j = none) (d b : ℚ) :
    (retryRun op sink true (n : ℤ) d b).2 = op n ∧
    unguardedCallCount (retryRun op sink true (n : ℤ) d b).1 = 1 ∧
    callCount (retryRun op sink true (n : ℤ) d b).1 = n + 1 ∧
    ∃ pre, (retryRun op sink true (n : ℤ) d b).1 =
        pre ++ [Event.call n false (op n)] := by
  obtain ⟨h1, _, h3, _, h5, pre, hpre, -⟩ :=
    retryLoop_fail op sink b hsink n d 0 0 (fun t ht => by simpa using hop t ht)
  rw [retryRun, Int.toNat_natCast]
  simp only [Nat.zero_add] at h1 hpre
  exact ⟨h1, h5, h3, pre, hpre⟩

/-- Witness for C3: two failing guarded attempts, then a final unguarded
invocation that succeeds with `7` — the success is propagated unchanged. -/
theorem retry_exhaustion_final_call_witness :
    (retryRun (fun i => if i < 2 then Outcome.err i else Outcome.ok 7)
      (fun _ => none) true ((2 : ℕ) : ℤ) 1 2).2 = Outcome.ok 7 ∧
    callCount (retryRun (fun i => if i < 2 then Outcome.err i else Outcome.ok 7)
      (fun _ => none) true ((2 : ℕ) : ℤ) 1 2).1 = 3 := by
  have h := retry_exhaustion_final_call 2
    (fun i => if i < 2 then Outcome.err i else Outcome.ok 7)
    (fun t ht => by interval_cases t <;> rfl)
    (fun _ => none) (fun _ => rfl) 1 2
  exact ⟨h.1, h.2.2.1⟩

/-- C4: in every run (any operation, any tries, sink returning normally
or absent), the `k`-th wait performed (0-based; the wait before the
1-indexed retry attempt `i` is wait number `i - 1`) lasts exactly
`d * b ^ k` — determined by the policy alone, with no dependence on any
clock; in particular with `b = 1` every wait equals `d`. -/
theorem retry_backoff_schedule {V E : Type} (op : Nat → Outcome V E)
    (sink : Nat → Option E) (hs : Bool) (hsink : ∀ j, sink j = none)
    (tries : ℤ) (d b : ℚ) :
    (∀ k, k < (sleepDurations (retryRun op sink hs tries d b).1).length →
      (sleepDurations (retryRun op sink hs tries d b).1).getD k 0 = d * b ^ k) ∧
    (b = 1 → ∀ k, k < (sleepDurations (retryRun op sink hs tries d b).1).length →
      (sleepDurations (retryRun op sink hs tries d b).1).getD k 0 = d) := by
  constructor
  · exact fun k hk => retryLoop_sleep_geom op sink hs b hsink tries.toNat d 0 0 k hk
  · rintro rfl k hk
    rw [retryRun] at hk ⊢
    rw [retryLoop_sleep_geom op sink hs 1 hsink tries.toNat d 0 0 k hk]
    simp

/-- Witness for C4: an always-failing operation with `tries = 3`,
`d = 1`, `b = 2` performs three waits of `1`, `2` and `4` seconds. -/
theorem retry_backoff_schedule_witness :
    (sleepDurations (retryRun (fun i => (Outcome.err i : Outcome Nat Nat))
        (fun _ => none) true 3 1 2).1).getD 0 0 = 1 ∧
    (sleepDurations (retryRun (fun i => (Outcome.err i : Outcome Nat Nat))
        (fun _ => none) true 3 1 2).1).getD 1 0 = 2 ∧
    (sleepDurations (retryRun (fun i => (Outcome.err i : Outcome Nat Nat))
        (fun _ => none) true 3 1 2).1).getD 2 0 = 4 := by
  have h := retry_backoff_schedule (fun i => (Outcome.err i : Outcome Nat Nat))
    (fun _ => none) true (fun _ => rfl) 3 1 2
  refine ⟨?_, ?_, ?_⟩
  · rw [h.1 0 (by decide)]; norm_num
  · rw [h.1 1 (by decide)]; norm_num
  · rw [h.1 2 (by decide)]; norm_num

/-- C5 counterexample: the sink call on line 68 is not guarded, so a
sink that raises propagates its own exception.  With an operation that
raises `1` on every invocation and a sink that raises `2` when first
notified, under `tries = 2` the caller observes `err 2` — the sink's
failure — and not the operation's own failure `err 1`: reporting via the
sink can throw and does block propagation of the real failure. -/
theorem retry_raising_sink_cex :
    (retryRun (fun _ => (Outcome.err 1 : Outcome Nat Nat))
      (fun _ => some 2) true 2 1 2).2 = Outcome.err 2 ∧
    Outcome.err (2 : Nat) ≠ (Outcome.err 1 : Outcome Nat Nat) := by
  constructor
  · rfl
  · decide

/-- C5 amended: provided the injected sink returns normally on every
call, reporting never affects the outcome — the caller observes exactly
what it would observe with no sink at all (the wrapped operation's own
terminal outcome). -/
theorem retry_sink_transparent {V E : Type} (op : Nat → Outcome V E)
    (sink : Nat → Option E) (hsink : ∀ j, sink j = none)
    (tries : ℤ) (d b : ℚ) :
    (retryRun op sink true tries d b).2 =
      (retryRun op (fun _ => none) false tries d b).2 := by
  rw [retryRun, retryRun]
  exact retryLoop_sink_transparent op sink b hsink tries.toNat d 0 0 0

/-- Witness for the amended C5: an always-failing operation under
`tries = 2`, with and without a (normally-returning) sink. -/
theorem retry_sink_transparent_witness :
    (retryRun (fun _ => (Outcome.err 1 : Outcome Nat Nat))
      (fun _ => none) true 2 1 2).2 =
    (retryRun (fun _ => (Outcome.err 1 : Outcome Nat Nat))
      (fun _ => none) false 2 1 2).2 :=
  retry_sink_transparent (fun _ => Outcome.err 1) (fun _ => none)
    (fun _ => rfl) 2 1 2

/-- C6: registering `A` then `B` under the same key `x` makes lookup of
`x` return `B` and only `B` (so never `A` when `A ≠ B`), and afterwards
the registry holds exactly one binding for `x`. -/
theorem register_last_write_wins {F : Type} (r : Registry F) (x : String) (A B : F) :
    get_fallback (register_fallback (register_fallback r x A) x B) x = some B ∧
    (∀ C, get_fallback (register_fallback (register_fallback r x A) x B) x =
      some C → C = B) ∧
    ((register_fallback (register_fallback r x A) x B).filter
      (fun p => p.1 == x)).length = 1 := by
  refine ⟨?_, ?_, ?_⟩
  · simp [get_fallback, register_fallback, List.find?]
  · intro C hC
    simp [get_fallback, register_fallback, List.find?] at hC
    exact hC.symm
  · have hempty : ∀ l : Registry F,
        List.filter (fun p => p.1 == x) (List.filter (fun p => p.1 != x) l) = [] := by
      intro l
      rw [List.filter_eq_nil_iff]
      intro p hp
      have hmem := List.of_mem_filter hp
      simp only [bne_iff_ne, ne_eq] at hmem
      simp [hmem]
    simp [register_fallback, List.filter_cons, hempty]

/-- Witness for C6: registering `1` then `2` under `"x"` in the empty
registry; lookup returns `2`. -/
theorem register_last_write_wins_witness :
    get_fallback (register_fallback (register_fallback
      (emptyRegistry (F := Nat)) "x" 1) "x" 2) "x" = some 2 :=
  (register_last_write_wins (emptyRegistry (F := Nat)) "x" 1 2).1

/-- C7: looking up an identifier no registration ever bound returns
`none`; in particular this holds for the pristine registry `{}` of
line 83.  `get_fallback` is a total Lean function, so the lookup cannot
raise. -/
theorem get_fallback_unregistered {F : Type} (r : Registry F) (k : String)
    (h : ∀ p ∈ r, p.1 ≠ k) :
    get_fallback r k = none ∧ get_fallback (emptyRegistry (F := F)) k = none := by
  refine ⟨?_, rfl⟩
  rw [get_fallback]
  have hnone : r.find? (fun p => p.1 == k) = none := by
    rw [List.find?_eq_none]
    intro p hp
    simpa using h p hp
  rw [hnone]
  rfl

/-- Witness for C7: a registry holding only `"a"`, probed at
`"unregistered-key"`. -/
theorem get_fallback_unregistered_witness :
    get_fallback (register_fallback (emptyRegistry (F := Nat)) "a" 1)
      "unregistered-key" = none :=
  (get_fallback_unregistered
    (register_fallback (emptyRegistry (F := Nat)) "a" 1)
    "unregistered-key" (by decide)).1

/-- C8: with `tries = 1` no retry happens — exactly one guarded attempt
is made, the operation is invoked at most twice in total (the second
invocation, present only when the first fails, being the exhaustion
policy's final unprotected call, whose outcome is propagated), and no
backoff wait occurs between two distinct guarded attempts. -/
theorem retry_single_attempt {V E : Type} (op : Nat → Outcome V E)
    (sink : Nat → Option E) (hsink : ∀ j, sink j = none) (d b : ℚ) :
    guardedCallCount (retryRun op sink true 1 d b).1 = 1 ∧
    callCount (retryRun op sink true 1 d b).1 ≤ 2 ∧
    waitsBetweenAttempts (retryRun op sink true 1 d b).1 = 0 ∧
    ((op 0).isErr = true →
      callCount (retryRun op sink true 1 d b).1 = 2 ∧
      (retryRun op sink true 1 d b).2 = op 1) := by
  have h1 : (1 : ℤ).toNat = 1 := rfl
  rw [retryRun, h1]
  cases hOp : op 0 with
  | ok v =>
    simp [retryLoop, hOp, guardedCallCount, callCount, waitsBetweenAttempts,
      Outcome.isErr]
  | err e =>
    simp [retryLoop, hOp, hsink 0, guardedCallCount, callCount,
      waitsBetweenAttempts, Outcome.isErr, List.any_cons]

/-- Witness for C8: an always-failing operation under `tries = 1`:
one guarded attempt, one final call, zero waits between attempts. -/
theorem retry_single_attempt_witness :
    guardedCallCount (retryRun (fun i => (Outcome.err i : Outcome Nat Nat))
      (fun _ => none) true 1 1 2).1 = 1 ∧
    callCount (retryRun (fun i => (Outcome.err i : Outcome Nat Nat))
      (fun _ => none) true 1 1 2).1 = 2 ∧
    waitsBetweenAttempts (retryRun (fun i => (Outcome.err i : Outcome Nat Nat))
      (fun _ => none) true 1 1 2).1 = 0 := by
  have h := retry_single_attempt (fun i => (Outcome.err i : Outcome Nat Nat))
    (fun _ => none) (fun _ => rfl) 1 2
  exact ⟨h.1, (h.2.2.2 rfl).1, h.2.2.1⟩

/-- C9: with `tries ≤ 0` the `while mtries > 0` loop body never runs,
so the wrapper performs exactly the single unprotected invocation of
line 74 — no notification, no sleep — and propagates its outcome. -/
theorem retry_nonpositive_tries {V E : Type} (op : Nat → Outcome V E)
    (sink : Nat → Option E) (hs : Bool) (tries : ℤ) (h : tries ≤ 0)
    (d b : ℚ) :
    retryRun op sink hs tries d b = ([Event.call 0 false (op 0)], op 0) := by
  have h0 : tries.toNat = 0 := by omega
  rw [retryRun, h0, retryLoop]

/-- Witness for C9: `tries = -1` and `tries = 0` both perform exactly
the one unprotected call. -/
theorem retry_nonpositive_tries_witness :
    retryRun (fun i => (Outcome.err i : Outcome Nat Nat))
      (fun _ => none) true (-1) 1 2 =
      ([Event.call 0 false (Outcome.err 0)], Outcome.err 0) ∧
    retryRun (fun i => (Outcome.err i : Outcome Nat Nat))
      (fun _ => none) true 0 1 2 =
      ([Event.call 0 false (Outcome.err 0)], Outcome.err 0) :=
  ⟨retry_nonpositive_tries (fun i => Outcome.err i) (fun _ => none) true (-1)
      (by decide) 1 2,
   retry_nonpositive_tries (fun i => Outcome.err i) (fun _ => none) true 0
      (by decide) 1 2⟩

/-- C10: registering under `k1` leaves the lookup result of any other
key `k2` unchanged, and looking a key up returns the registry state
unmodified. -/
theorem register_frame {F : Type} (r : Registry F) (k1 k2 : String)
    (h : k1 ≠ k2) (v : F) :
    get_fallback (register_fallback r k1 v) k2 = get_fallback r k2 ∧
    (get_fallback_st r k2).2 = r := by
  refine ⟨?_, rfl⟩
  rw [get_fallback, get_fallback, register_fallback, List.find?]
  have hne : ((k1, v).1 == k2) = false := by simpa using h
  rw [hne]
  rw [find?_filter_of_imp]
  intro p hp
  simp only [beq_iff_eq] at hp
  simp [hp, bne_iff_ne]
  exact fun heq => h (heq ▸ rfl)

/-- Witness for C10: registering under `"y"` does not disturb the
binding of `"x"`, and a lookup leaves the registry unchanged. -/
theorem register_frame_witness :
    get_fallback (register_fallback
      (register_fallback (emptyRegistry (F := Nat)) "x" 5) "y" 7) "x" =
      get_fallback (register_fallback (emptyRegistry (F := Nat)) "x" 5) "x" ∧
    (get_fallback_st (register_fallback (emptyRegistry (F := Nat)) "x" 5) "x").2 =
      register_fallback (emptyRegistry (F := Nat)) "x" 5 :=
  register_frame (register_fallback (emptyRegistry (F := Nat)) "x" 5)
    "y" "x" (by decide) 7

end ErrorHandling
